import Mathlib

/-!
Verification of the btc-dashboard core engines (channel computation,
strategy engine, backtest simulator) against their specification.

Python floats are modelled as rationals; a non-finite float (NaN or ±inf)
is modelled as `none : Option ℚ` — every code path below guards values
with `np.isfinite` before comparing or computing with them, so collapsing
all non-finite values to one marker is faithful.
-/

namespace BtcDashboard

/-- Embeds `clamp` from core/utils.py: `max(min_val, min(max_val, value))`. -/
def clamp (value min_val max_val : ℚ) : ℚ :=
  max min_val (min max_val value)

/-- Embeds the `StrategyParams` dataclass from core/models.py with its defaults. -/
structure StrategyParams where
  ladder : String := "g1"
  sell_start : ℚ := 46
  buy_threshold : ℚ := 14
  reentry_mode : String := "instant"
  start_weight : ℚ := 1
  start_date : String := "2018-01-01"
deriving DecidableEq

/-- Embeds the `StrategyStep` dataclass from core/models.py. -/
structure StrategyStep where
  weight : ℚ
  action : String
  tag : String
deriving DecidableEq

/-- Embeds `StrategyEngine.sell_weight` from core/strategy.py.
The `ratio` argument is `none` when the Python float is non-finite. -/
def sell_weight (ratio : Option ℚ) (sell_start : ℚ) (ladder : String) : ℚ :=
  match ratio with
  | none => 1
  | some r =>
    if r ≤ sell_start then 1
    else if 100 ≤ r then 0
    else
      let width := 100 - sell_start
      if width ≤ 0 then 0
      else
        let x := clamp ((r - sell_start) / width) 0 1
        if ladder = "g0" then
          clamp (1 - x * x) 0 1
        else if ladder = "g2" then
          let base := clamp (1 - x) 0 1
          base * base
        else
          clamp (1 - x) 0 1

/-- Embeds `StrategyEngine.target_weight` from core/strategy.py. -/
def target_weight (prev_weight : ℚ) (ratio : Option ℚ) (params : StrategyParams) : ℚ :=
  match ratio with
  | none => prev_weight
  | some r =>
    if params.sell_start ≤ r then
      min prev_weight (sell_weight (some r) params.sell_start params.ladder)
    else if params.reentry_mode = "instant" then 1
    else if params.reentry_mode = "wait" then
      if r ≤ params.buy_threshold then 1 else prev_weight
    else
      let denom := max params.sell_start (1 / 1000000000)
      let f := clamp ((params.sell_start - r) / denom) 0 1
      let eased := f * f
      clamp (prev_weight + (1 - prev_weight) * eased) 0 1

/-- Embeds `StrategyEngine.step_weight` from core/strategy.py. -/
def step_weight (prev_weight : ℚ) (ratio : Option ℚ) (params : StrategyParams) :
    StrategyStep :=
  let target := target_weight prev_weight ratio params
  let delta := target - prev_weight
  if |delta| ≤ 1 / 1000000000000 then ⟨prev_weight, "HOLD", "hold"⟩
  else if 0 < delta then ⟨target, "BUY / REBALANCE UP", "buy"⟩
  else ⟨target, "SELL / REBALANCE DOWN", "sell"⟩

/-- Lower and upper bound of `clamp` when the bounds are ordered. -/
lemma clamp_bounds (v lo hi : ℚ) (h : lo ≤ hi) :
    lo ≤ clamp v lo hi ∧ clamp v lo hi ≤ hi := by
  unfold clamp
  constructor
  · exact le_max_left _ _
  · exact max_le h (min_le_left _ _)

/-- `clamp` is the identity on values already inside the bounds. -/
lemma clamp_eq_self (v lo hi : ℚ) (h1 : lo ≤ v) (h2 : v ≤ hi) :
    clamp v lo hi = v := by
  unfold clamp
  rw [min_eq_right h2, max_eq_right h1]

/-- `clamp` is monotone in its value argument. -/
lemma clamp_mono (v w lo hi : ℚ) (h : v ≤ w) :
    clamp v lo hi ≤ clamp w lo hi := by
  unfold clamp
  exact max_le_max le_rfl (min_le_min le_rfl h)

/-- `sell_weight` always lands in the unit interval. -/
lemma sell_weight_mem_unit (ratio : Option ℚ) (ss : ℚ) (ladder : String) :
    0 ≤ sell_weight ratio ss ladder ∧ sell_weight ratio ss ladder ≤ 1 := by
  unfold sell_weight
  match ratio with
  | none => norm_num
  | some r =>
    dsimp only
    split
    · norm_num
    · split
      · norm_num
      · split
        · norm_num
        · have hx := clamp_bounds ((r - ss) / (100 - ss)) 0 1 (by norm_num)
          split
          · exact clamp_bounds _ 0 1 (by norm_num)
          · split
            · have hb := clamp_bounds (1 - clamp ((r - ss) / (100 - ss)) 0 1) 0 1
                (by norm_num)
              constructor
              · exact mul_nonneg hb.1 hb.1
              · exact mul_le_one₀ hb.2 hb.1 hb.2
            · exact clamp_bounds _ 0 1 (by norm_num)

/-- Claim C4: in the sell regime (finite ratio at or above `sell_start`) the
transition returns `min prev (ladder value)`, hence never exceeds the previous
allocation (sell-only hysteresis). -/
theorem target_weight_sell_regime (prev : ℚ) (params : StrategyParams) (r : ℚ)
    (h : params.sell_start ≤ r) :
    target_weight prev (some r) params
      = min prev (sell_weight (some r) params.sell_start params.ladder)
    ∧ target_weight prev (some r) params ≤ prev := by
  have heq : target_weight prev (some r) params
      = min prev (sell_weight (some r) params.sell_start params.ladder) := by
    simp only [target_weight]
    rw [if_pos h]
  exact ⟨heq, heq ▸ min_le_left _ _⟩

/-- Witness for C4: with previous allocation 0.4, default parameters and
ratio 46 (ladder value 1 > 0.4), the allocation stays 0.4. -/
theorem target_weight_sell_regime_witness :
    target_weight (2/5) (some 46) {}
      = min (2/5) (sell_weight (some 46) 46 "g1")
    ∧ target_weight (2/5) (some 46) {} ≤ 2/5 :=
  target_weight_sell_regime (2/5) {} 46 (by norm_num)

/-- Inside the open sell range the ladder selection reduces to the three
clamped formulas of the source. -/
lemma sell_weight_interior (r ss : ℚ) (h1 : ss < r) (h2 : r < 100) (ladder : String) :
    sell_weight (some r) ss ladder =
      (if ladder = "g0" then clamp (1 - clamp ((r - ss) / (100 - ss)) 0 1 *
          clamp ((r - ss) / (100 - ss)) 0 1) 0 1
       else if ladder = "g2" then clamp (1 - clamp ((r - ss) / (100 - ss)) 0 1) 0 1 *
          clamp (1 - clamp ((r - ss) / (100 - ss)) 0 1) 0 1
       else clamp (1 - clamp ((r - ss) / (100 - ss)) 0 1) 0 1) := by
  have hw : ¬(100 - ss ≤ 0) := by linarith
  simp only [sell_weight]
  rw [if_neg (not_le.mpr h1), if_neg (not_le.mpr (by linarith : r < 100)), if_neg hw]

/-- The normalized coordinate of the midpoint of the sell range is 1/2. -/
lemma midpoint_x (ss : ℚ) (h1 : ss < 100) :
    (ss + (100 - ss) / 2 - ss) / (100 - ss) = 1 / 2 := by
  have h : (100 : ℚ) - ss ≠ 0 := by linarith
  field_simp
  ring

/-- Claim C5: every ladder gives weight 1 at `sell_start` and 0 at ratio 100;
at the midpoint of the sell range the soft ladder gives 0.75, the linear
ladder 0.5 and the aggressive ladder 0.25. -/
theorem sell_weight_ladder_values (ss : ℚ) (h0 : 0 ≤ ss) (h1 : ss < 100) :
    (∀ ladder : String, sell_weight (some ss) ss ladder = 1)
    ∧ (∀ ladder : String, sell_weight (some 100) ss ladder = 0)
    ∧ sell_weight (some (ss + (100 - ss) / 2)) ss "g0" = 3 / 4
    ∧ sell_weight (some (ss + (100 - ss) / 2)) ss "g1" = 1 / 2
    ∧ sell_weight (some (ss + (100 - ss) / 2)) ss "g2" = 1 / 4 := by
  have hmid1 : ss < ss + (100 - ss) / 2 := by linarith
  have hmid2 : ss + (100 - ss) / 2 < 100 := by linarith
  have hx : clamp ((ss + (100 - ss) / 2 - ss) / (100 - ss)) 0 1 = 1 / 2 := by
    rw [midpoint_x ss h1]
    exact clamp_eq_self _ 0 1 (by norm_num) (by norm_num)
  refine ⟨?_, ?_, ?_, ?_, ?_⟩
  · intro ladder
    simp only [sell_weight]
    rw [if_pos le_rfl]
  · intro ladder
    simp only [sell_weight]
    rw [if_neg (not_le.mpr h1), if_pos le_rfl]
  · rw [sell_weight_interior _ _ hmid1 hmid2, if_pos rfl, hx]
    rw [clamp_eq_self _ 0 1 (by norm_num) (by norm_num)]
    norm_num
  · rw [sell_weight_interior _ _ hmid1 hmid2,
      if_neg (by decide : ¬("g1" = "g0")), if_neg (by decide : ¬("g1" = "g2")), hx]
    rw [clamp_eq_self _ 0 1 (by norm_num) (by norm_num)]
    norm_num
  · rw [sell_weight_interior _ _ hmid1 hmid2,
      if_neg (by decide : ¬("g2" = "g0")), if_pos rfl, hx]
    rw [clamp_eq_self _ 0 1 (by norm_num) (by norm_num)]
    norm_num

/-- Witness for C5 at `sell_start = 46`. -/
theorem sell_weight_ladder_values_witness :
    (∀ ladder : String, sell_weight (some 46) 46 ladder = 1)
    ∧ (∀ ladder : String, sell_weight (some 100) 46 ladder = 0)
    ∧ sell_weight (some (46 + (100 - 46) / 2)) 46 "g0" = 3 / 4
    ∧ sell_weight (some (46 + (100 - 46) / 2)) 46 "g1" = 1 / 2
    ∧ sell_weight (some (46 + (100 - 46) / 2)) 46 "g2" = 1 / 4 :=
  sell_weight_ladder_values 46 (by norm_num) (by norm_num)

/-- Claim C10: any ladder string other than "g0" and "g2" behaves exactly as
the linear ladder "g1"; in the open sell range it evaluates to `1 - x` for
the clamped normalized coordinate `x`. -/
theorem sell_weight_unknown_ladder (ladder : String)
    (hg0 : ladder ≠ "g0") (hg2 : ladder ≠ "g2") (ratio : Option ℚ) (ss : ℚ) :
    sell_weight ratio ss ladder = sell_weight ratio ss "g1"
    ∧ ∀ r : ℚ, ss < r → r < 100 →
        sell_weight (some r) ss ladder = 1 - clamp ((r - ss) / (100 - ss)) 0 1 := by
  constructor
  · match ratio with
    | none => rfl
    | some r =>
      simp only [sell_weight, hg0, hg2]
      rw [if_neg (by decide : ¬("g1" = "g0")), if_neg (by decide : ¬("g1" = "g2"))]
      simp
  · intro r hr1 hr2
    have hx := clamp_bounds ((r - ss) / (100 - ss)) 0 1 (by norm_num)
    rw [sell_weight_interior _ _ hr1 hr2, if_neg hg0, if_neg hg2]
    exact clamp_eq_self _ 0 1 (by linarith [hx.2]) (by linarith [hx.1])

/-- Witness for C10 at the unrecognized ladder string "zigzag". -/
theorem sell_weight_unknown_ladder_witness :
    sell_weight (some 73) 46 "zigzag" = sell_weight (some 73) 46 "g1"
    ∧ ∀ r : ℚ, 46 < r → r < 100 →
        sell_weight (some r) 46 "zigzag" = 1 - clamp ((r - 46) / (100 - 46)) 0 1 :=
  ⟨(sell_weight_unknown_ladder "zigzag" (by decide) (by decide) (some 73) 46).1,
   (sell_weight_unknown_ladder "zigzag" (by decide) (by decide) (some 73) 46).2⟩

/-- Claim C6: in gradual re-entry mode, below `sell_start` the transition
returns `current + (1 - current) * f²` with `f = clamp((sell_start - position)
/ sell_start, 0, 1)`; the result never decreases, never exceeds 1, and is
non-increasing in the position.  The hypothesis `1e-9 ≤ sell_start` reflects
the source's division-by-zero guard `denom = max(sell_start, 1e-9)`. -/
theorem target_weight_gradual (params : StrategyParams) (cur r : ℚ)
    (hmode : params.reentry_mode = "gradual")
    (hss : 1 / 1000000000 ≤ params.sell_start)
    (hc0 : 0 ≤ cur) (hc1 : cur ≤ 1) (hr : r < params.sell_start) :
    target_weight cur (some r) params
      = cur + (1 - cur) * (clamp ((params.sell_start - r) / params.sell_start) 0 1) ^ 2
    ∧ cur ≤ target_weight cur (some r) params
    ∧ target_weight cur (some r) params ≤ 1
    ∧ ∀ r2 : ℚ, r ≤ r2 → r2 < params.sell_start →
        target_weight cur (some r2) params ≤ target_weight cur (some r) params := by
  have hpos : (0 : ℚ) < params.sell_start := lt_of_lt_of_le (by norm_num) hss
  have key : ∀ p : ℚ, p < params.sell_start →
      target_weight cur (some p) params
        = cur + (1 - cur) * (clamp ((params.sell_start - p) / params.sell_start) 0 1) ^ 2 := by
    intro p hp
    have hf := clamp_bounds ((params.sell_start - p) / params.sell_start) 0 1 (by norm_num)
    set f := clamp ((params.sell_start - p) / params.sell_start) 0 1 with hfdef
    have he0 : 0 ≤ f * f := mul_nonneg hf.1 hf.1
    have he1 : f * f ≤ 1 := mul_le_one₀ hf.2 hf.1 hf.2
    have hv0 : 0 ≤ cur + (1 - cur) * (f * f) :=
      add_nonneg hc0 (mul_nonneg (by linarith) he0)
    have hv1 : cur + (1 - cur) * (f * f) ≤ 1 := by nlinarith
    simp only [target_weight]
    rw [if_neg (not_le.mpr hp), hmode,
      if_neg (by decide : ¬("gradual" = "instant")),
      if_neg (by decide : ¬("gradual" = "wait")),
      max_eq_left hss, ← hfdef, clamp_eq_self _ 0 1 hv0 hv1, pow_two]
  have hfr := clamp_bounds ((params.sell_start - r) / params.sell_start) 0 1 (by norm_num)
  refine ⟨key r hr, ?_, ?_, ?_⟩
  · rw [key r hr]
    have : 0 ≤ (1 - cur) * (clamp ((params.sell_start - r) / params.sell_start) 0 1) ^ 2 :=
      mul_nonneg (by linarith) (by positivity)
    linarith
  · rw [key r hr]
    have hsqle : (clamp ((params.sell_start - r) / params.sell_start) 0 1) ^ 2 ≤ 1 := by
      nlinarith [hfr.1, hfr.2]
    have hprod := mul_nonneg (by linarith : (0:ℚ) ≤ 1 - cur)
      (by linarith : (0:ℚ) ≤ 1 - (clamp ((params.sell_start - r) / params.sell_start) 0 1) ^ 2)
    nlinarith
  · intro r2 h12 hr2
    rw [key r hr, key r2 hr2]
    have hmono : clamp ((params.sell_start - r2) / params.sell_start) 0 1
        ≤ clamp ((params.sell_start - r) / params.sell_start) 0 1 := by
      apply clamp_mono
      gcongr
    have hf2 := clamp_bounds ((params.sell_start - r2) / params.sell_start) 0 1 (by norm_num)
    have hsq : (clamp ((params.sell_start - r2) / params.sell_start) 0 1) ^ 2
        ≤ (clamp ((params.sell_start - r) / params.sell_start) 0 1) ^ 2 :=
      pow_le_pow_left₀ hf2.1 hmono 2
    nlinarith

/-- Witness for C6: gradual mode, current allocation 1/2, position 23,
default `sell_start = 46`. -/
theorem target_weight_gradual_witness :
    target_weight (1/2) (some 23) { reentry_mode := "gradual" }
      = 1/2 + (1 - 1/2) * (clamp ((46 - 23) / 46) 0 1) ^ 2
    ∧ 1/2 ≤ target_weight (1/2) (some 23) { reentry_mode := "gradual" }
    ∧ target_weight (1/2) (some 23) { reentry_mode := "gradual" } ≤ 1
    ∧ ∀ r2 : ℚ, 23 ≤ r2 → r2 < 46 →
        target_weight (1/2) (some r2) { reentry_mode := "gradual" }
          ≤ target_weight (1/2) (some 23) { reentry_mode := "gradual" } :=
  target_weight_gradual { reentry_mode := "gradual" } (1/2) 23 rfl
    (by norm_num) (by norm_num) (by norm_num) (by norm_num)

/-- Record of the most recent allocation-change event, as built in
`StrategyEngine.compute_weight_series`. -/
structure LastTrade where
  date : String
  action : String
  ratio : Option ℚ
  weight : ℚ
  tag : String
deriving DecidableEq

/-- The loop body of `StrategyEngine.compute_weight_series` from
core/strategy.py, iterating over the (ratio, date) pairs from the start
index on and threading the running weight and last-trade record. -/
def weightLoop (params : StrategyParams) :
    ℚ → Option LastTrade → List (Option ℚ × String) → List ℚ × Option LastTrade
  | _, lt, [] => ([], lt)
  | w, lt, (r, d) :: rest =>
      let st := step_weight w r params
      let lt2 := if 1 / 1000000000000 < |st.weight - w| then
          some ⟨d, st.action, r, st.weight, st.tag⟩ else lt
      let next := weightLoop params st.weight lt2 rest
      (st.weight :: next.1, next.2)

/-- Embeds `StrategyEngine.compute_weight_series` from core/strategy.py:
entries before `start_idx` stay `None`, the rest are filled by the loop
started at `params.start_weight`.  (The source indexes `dates[i]` directly;
pairing with `zip` coincides with it whenever the date list is at least as
long as the ratio list, as at every call site.) -/
def compute_weight_series (ratios : List (Option ℚ)) (dates : List String)
    (params : StrategyParams) (start_idx : ℕ) :
    List (Option ℚ) × Option LastTrade :=
  let pairs := (ratios.drop start_idx).zip (dates.drop start_idx)
  let res := weightLoop params params.start_weight none pairs
  (List.replicate (min start_idx ratios.length) none ++ res.1.map some, res.2)

/-- `target_weight` maps a previous weight in [0,1] to a weight in [0,1],
for finite and non-finite ratios alike. -/
lemma target_weight_mem_unit (params : StrategyParams) (ratio : Option ℚ) (w : ℚ)
    (h0 : 0 ≤ w) (h1 : w ≤ 1) :
    0 ≤ target_weight w ratio params ∧ target_weight w ratio params ≤ 1 := by
  match ratio with
  | none => exact ⟨h0, h1⟩
  | some r =>
    simp only [target_weight]
    split
    · have hsw := sell_weight_mem_unit (some r) params.sell_start params.ladder
      exact ⟨le_min h0 hsw.1, le_trans (min_le_left _ _) h1⟩
    · split
      · norm_num
      · split
        · split
          · norm_num
          · exact ⟨h0, h1⟩
        · exact clamp_bounds _ 0 1 (by norm_num)

/-- `step_weight` keeps the weight in [0,1]. -/
lemma step_weight_mem_unit (params : StrategyParams) (ratio : Option ℚ) (w : ℚ)
    (h0 : 0 ≤ w) (h1 : w ≤ 1) :
    0 ≤ (step_weight w ratio params).weight ∧ (step_weight w ratio params).weight ≤ 1 := by
  have ht := target_weight_mem_unit params ratio w h0 h1
  simp only [step_weight]
  split
  · exact ⟨h0, h1⟩
  · split
    · exact ht
    · exact ht

/-- The weight list built by the loop has one entry per input pair. -/
lemma weightLoop_length (params : StrategyParams) (pairs : List (Option ℚ × String)) :
    ∀ (w : ℚ) (lt : Option LastTrade),
      (weightLoop params w lt pairs).1.length = pairs.length := by
  induction pairs with
  | nil => intro w lt; rfl
  | cons p rest ih =>
    intro w lt
    obtain ⟨r, d⟩ := p
    simp only [weightLoop, List.length_cons]
    rw [ih]

/-- Every weight the loop produces stays in [0,1] if it starts there. -/
lemma weightLoop_mem_unit (params : StrategyParams) (pairs : List (Option ℚ × String)) :
    ∀ (w : ℚ) (lt : Option LastTrade), 0 ≤ w → w ≤ 1 →
      ∀ x ∈ (weightLoop params w lt pairs).1, 0 ≤ x ∧ x ≤ 1 := by
  induction pairs with
  | nil => intro w lt _ _ x hx; simp [weightLoop] at hx
  | cons p rest ih =>
    intro w lt h0 h1 x hx
    obtain ⟨r, d⟩ := p
    have hst := step_weight_mem_unit params r w h0 h1
    simp only [weightLoop, List.mem_cons] at hx
    rcases hx with hx | hx
    · exact hx ▸ hst
    · exact ih _ _ hst.1 hst.2 x hx

/-- Claim C7: entries of the weight series before the start index are
undefined; from the start index on each entry is a defined weight in [0,1];
and the one-step transition maps [0,1] into [0,1] for every ratio. -/
theorem compute_weight_series_range (ratios : List (Option ℚ)) (dates : List String)
    (params : StrategyParams) (start_idx : ℕ)
    (hw0 : 0 ≤ params.start_weight) (hw1 : params.start_weight ≤ 1)
    (hlen : dates.length = ratios.length) :
    (∀ i : ℕ, i < start_idx → i < ratios.length →
       ((compute_weight_series ratios dates params start_idx).1)[i]? = some none)
    ∧ (∀ i : ℕ, start_idx ≤ i → i < ratios.length →
       ∃ w : ℚ, ((compute_weight_series ratios dates params start_idx).1)[i]? = some (some w)
         ∧ 0 ≤ w ∧ w ≤ 1)
    ∧ (∀ (w : ℚ) (r : Option ℚ), 0 ≤ w → w ≤ 1 →
         0 ≤ target_weight w r params ∧ target_weight w r params ≤ 1) := by
  have hpairs : ((ratios.drop start_idx).zip (dates.drop start_idx)).length
      = ratios.length - start_idx := by
    rw [List.length_zip, List.length_drop, List.length_drop, hlen, min_self]
  have hlooplen :
      (weightLoop params params.start_weight none
        ((ratios.drop start_idx).zip (dates.drop start_idx))).1.length
      = ratios.length - start_idx := by
    rw [weightLoop_length, hpairs]
  refine ⟨?_, ?_, fun w r h0 h1 => target_weight_mem_unit params r w h0 h1⟩
  · intro i hi hiL
    have hmin : i < min start_idx ratios.length := lt_min hi hiL
    simp only [compute_weight_series]
    rw [List.getElem?_append_left (by simpa using hmin), List.getElem?_replicate,
      if_pos hmin]
  · intro i hsi hiL
    have hslen : start_idx ≤ ratios.length := le_of_lt (lt_of_le_of_lt hsi hiL)
    have hmin : min start_idx ratios.length = start_idx := min_eq_left hslen
    simp only [compute_weight_series]
    have hreplen : (List.replicate (min start_idx ratios.length)
        (none : Option ℚ)).length ≤ i := by
      rw [List.length_replicate, hmin]; exact hsi
    rw [List.getElem?_append_right hreplen, List.length_replicate, hmin,
      List.getElem?_map]
    have hj : i - start_idx <
        (weightLoop params params.start_weight none
          ((ratios.drop start_idx).zip (dates.drop start_idx))).1.length := by
      rw [hlooplen]; omega
    rw [List.getElem?_eq_getElem hj]
    refine ⟨_, rfl, ?_⟩
    exact weightLoop_mem_unit params _ params.start_weight none hw0 hw1 _
      (List.getElem_mem hj)

/-- Witness for C7: one-day ratio series with default parameters. -/
theorem compute_weight_series_range_witness :
    (∀ i : ℕ, i < 0 → i < ([some (0:ℚ)] : List (Option ℚ)).length →
       ((compute_weight_series [some 0] ["d"] {} 0).1)[i]? = some none)
    ∧ (∀ i : ℕ, 0 ≤ i → i < ([some (0:ℚ)] : List (Option ℚ)).length →
       ∃ w : ℚ, ((compute_weight_series [some 0] ["d"] {} 0).1)[i]? = some (some w)
         ∧ 0 ≤ w ∧ w ≤ 1)
    ∧ (∀ (w : ℚ) (r : Option ℚ), 0 ≤ w → w ≤ 1 →
         0 ≤ target_weight w r {} ∧ target_weight w r {} ≤ 1) :=
  compute_weight_series_range [some 0] ["d"] {} 0 (by norm_num) (by norm_num) rfl

/-- One iteration of the `max_drawdown` loop from core/utils.py: skip a
missing/non-finite value, otherwise raise the running peak and lower the
running most-negative drawdown. -/
def mddStep : Option ℚ × ℚ → Option ℚ → Option ℚ × ℚ
  | (peak, mdd), none => (peak, mdd)
  | (peak, mdd), some v =>
      let peak2 := match peak with
        | none => v
        | some p => if p < v then v else p
      let dd := if 0 < peak2 then v / peak2 - 1 else 0
      (some peak2, if dd < mdd then dd else mdd)

/-- Embeds `max_drawdown` from core/utils.py: fold of `mddStep` starting
from peak `-inf` (modelled `none`) and drawdown 0. -/
def max_drawdown (values : List (Option ℚ)) : ℚ :=
  (values.foldl mddStep (none, 0)).2

/-- Running-peak update: the new peak after seeing value `v` (a peak of
`none` models the initial `-inf`). -/
def peakUpd : Option ℚ → ℚ → ℚ
  | none, v => v
  | some p, v => max p v

/-- The spec's description of the drawdown sequence, for comparison with
the source's single-pass fold: at each point the drawdown is
`equity / running_peak - 1` (0 when the running peak is not positive). -/
def drawdownSeq : Option ℚ → List ℚ → List ℚ
  | _, [] => []
  | peak, v :: vs =>
      (if 0 < peakUpd peak v then v / peakUpd peak v - 1 else 0)
        :: drawdownSeq (some (peakUpd peak v)) vs

lemma ite_lt_eq_max (p v : ℚ) : (if p < v then v else p) = max p v := by
  by_cases h : p < v
  · rw [if_pos h, max_eq_right h.le]
  · rw [if_neg h, max_eq_left (not_lt.1 h)]

lemma ite_lt_eq_min (dd m : ℚ) : (if dd < m then dd else m) = min m dd := by
  by_cases h : dd < m
  · rw [if_pos h, min_eq_right h.le]
  · rw [if_neg h, min_eq_left (not_lt.1 h)]

/-- One source loop iteration on a present value, in closed form. -/
lemma mddStep_some (peak : Option ℚ) (m v : ℚ) :
    mddStep (peak, m) (some v)
      = (some (peakUpd peak v),
         min m (if 0 < peakUpd peak v then v / peakUpd peak v - 1 else 0)) := by
  match peak with
  | none =>
    simp only [mddStep, peakUpd]
    rw [ite_lt_eq_min]
  | some p =>
    simp only [mddStep, peakUpd]
    rw [ite_lt_eq_max, ite_lt_eq_min]

/-- Skipping `none` entries first does not change the `max_drawdown` fold. -/
lemma foldl_mddStep_filterMap (l : List (Option ℚ)) : ∀ s : Option ℚ × ℚ,
    l.foldl mddStep s = (l.filterMap id).foldl (fun s v => mddStep s (some v)) s := by
  induction l with
  | nil => intro s; rfl
  | cons a l ih =>
    intro s
    match a with
    | none => simpa [List.filterMap_cons, mddStep] using ih s
    | some v => simpa [List.filterMap_cons] using ih (mddStep s (some v))

/-- The source's fold computes the running minimum of the spec's drawdown
sequence. -/
lemma mddStep_fold_eq_min (xs : List ℚ) : ∀ (peak : Option ℚ) (m : ℚ),
    (xs.foldl (fun s v => mddStep s (some v)) (peak, m)).2
      = (drawdownSeq peak xs).foldl min m := by
  induction xs with
  | nil => intro peak m; rfl
  | cons v vs ih =>
    intro peak m
    rw [List.foldl_cons, mddStep_some, ih]
    simp only [drawdownSeq, List.foldl_cons]

/-- A `min`-fold never exceeds its initial value. -/
lemma foldl_min_le_init (l : List ℚ) : ∀ m : ℚ, l.foldl min m ≤ m := by
  induction l with
  | nil => intro m; exact le_rfl
  | cons a l ih =>
    intro m
    exact le_trans (ih (min m a)) (min_le_left _ _)

/-- A `min`-fold is a lower bound of every list element. -/
lemma foldl_min_le_mem (l : List ℚ) : ∀ (m : ℚ), ∀ d ∈ l, l.foldl min m ≤ d := by
  induction l with
  | nil => intro m d hd; simp at hd
  | cons a l ih =>
    intro m d hd
    rcases List.mem_cons.1 hd with h | h
    · subst h
      exact le_trans (foldl_min_le_init l (min m d)) (min_le_right _ _)
    · exact ih (min m a) d h

/-- A `min`-fold returns its initial value or one of the list elements. -/
lemma foldl_min_attained (l : List ℚ) : ∀ m : ℚ,
    l.foldl min m = m ∨ l.foldl min m ∈ l := by
  induction l with
  | nil => intro m; exact Or.inl rfl
  | cons a l ih =>
    intro m
    rcases ih (min m a) with h | h
    · rcases min_choice m a with hm | hm
      · exact Or.inl (h.trans hm)
      · exact Or.inr (List.mem_cons.2 (Or.inl (h.trans hm)))
    · exact Or.inr (List.mem_cons.2 (Or.inr h))

/-- On a non-decreasing equity curve every drawdown is 0. -/
lemma drawdownSeq_chain (xs : List ℚ) : ∀ peak : Option ℚ,
    List.Chain' (· ≤ ·) xs →
    (∀ p v, peak = some p → xs.head? = some v → p ≤ v) →
    drawdownSeq peak xs = List.replicate xs.length 0 := by
  induction xs with
  | nil => intro peak _ _; rfl
  | cons v vs ih =>
    intro peak hch hpk
    have hch' := List.chain'_cons'.1 hch
    have hp2 : peakUpd peak v = v := by
      match peak with
      | none => rfl
      | some p => exact max_eq_right (hpk p v rfl rfl)
    have hdd : (if 0 < v then v / v - 1 else 0) = 0 := by
      by_cases h : 0 < v
      · rw [if_pos h, div_self (ne_of_gt h)]; ring
      · exact if_neg h
    simp only [drawdownSeq, hp2, hdd, List.length_cons, List.replicate_succ]
    rw [ih (some v) hch'.2 (fun p y hp hy => by
      cases hp
      exact hch'.1 y hy)]

/-- A `min`-fold from 0 over zeros is 0. -/
lemma foldl_min_replicate_zero (n : ℕ) :
    (List.replicate n (0:ℚ)).foldl min 0 = 0 := by
  induction n with
  | zero => rfl
  | succ n ih => simpa [List.replicate_succ] using ih

/-- Evaluation of `max_drawdown` on the spec's drawdown scenario. -/
lemma max_drawdown_concrete :
    max_drawdown [some 1, some (3/2), some (6/5), some (9/5), some (9/10)] = -(1/2) := by
  have h : max_drawdown [some 1, some (3/2), some (6/5), some (9/5), some (9/10)]
      = (drawdownSeq none
          ([some 1, some (3/2), some (6/5), some (9/5), some (9/10)].filterMap id)).foldl
            min 0 := by
    unfold max_drawdown
    rw [foldl_mddStep_filterMap, mddStep_fold_eq_min]
  rw [h]
  norm_num [List.filterMap_cons, drawdownSeq, peakUpd, max_def, min_def]

/-- Claim C9: `max_drawdown` reports the most negative value of
`equity / running_peak - 1` over the valid entries (0 if none is negative),
is never positive, is 0 on a curve that only rises, and evaluates to -0.5
on the sequence [1.0, 1.5, 1.2, 1.8, 0.9]. -/
theorem max_drawdown_spec (l : List (Option ℚ)) :
    max_drawdown l = (drawdownSeq none (l.filterMap id)).foldl min 0
    ∧ max_drawdown l ≤ 0
    ∧ (∀ d ∈ drawdownSeq none (l.filterMap id), max_drawdown l ≤ d)
    ∧ (max_drawdown l = 0 ∨ max_drawdown l ∈ drawdownSeq none (l.filterMap id))
    ∧ (List.Chain' (· ≤ ·) (l.filterMap id) → max_drawdown l = 0)
    ∧ max_drawdown [some 1, some (3/2), some (6/5), some (9/5), some (9/10)] = -(1/2) := by
  have hmain : max_drawdown l = (drawdownSeq none (l.filterMap id)).foldl min 0 := by
    unfold max_drawdown
    rw [foldl_mddStep_filterMap, mddStep_fold_eq_min]
  refine ⟨hmain, ?_, ?_, ?_, ?_, max_drawdown_concrete⟩
  · rw [hmain]; exact foldl_min_le_init _ 0
  · rw [hmain]; exact foldl_min_le_mem _ 0
  · rw [hmain]; exact foldl_min_attained _ 0
  · intro hch
    rw [hmain, drawdownSeq_chain _ none hch (by intro p v hp _; cases hp),
      foldl_min_replicate_zero]

/-- Witness for C9: a rising two-point curve has drawdown 0. -/
theorem max_drawdown_spec_witness :
    max_drawdown [some 1, some 2] = 0 :=
  (max_drawdown_spec [some 1, some 2]).2.2.2.2.1 (by
    simp [List.filterMap_cons, List.chain'_cons])

/-- Embeds the `BacktestResult` dataclass from core/models.py. -/
structure BacktestResult where
  dates : List String
  weights : List (Option ℚ)
  strategy_equity : List (Option ℚ)
  hodl_equity : List (Option ℚ)
  strategy_return : ℚ
  hodl_return : ℚ
  strategy_max_drawdown : ℚ
  hodl_max_drawdown : ℚ
  last_trade : Option LastTrade
deriving DecidableEq

/-- The daily-return loop of `BacktestEngine.run_backtest` from
core/backtest.py, producing the equity entries after the initial 1.0: a
non-finite price, a non-positive base price, or an undefined allocation
breaks the loop, leaving the remaining entries unset (`none`).  The
`if he = 0 then 1 else he` factor embeds the source's `(hodl_equity[i] or
1.0)`, where Python's `or` also replaces a 0.0 equity by 1.0. -/
def equityTail : List (Option ℚ) → List (Option ℚ) → ℚ → ℚ →
    List (Option ℚ) × List (Option ℚ)
  | p0 :: p1 :: ps, ws, he, se =>
      match p0, p1, ws with
      | some q0, some q1, some w :: wrest =>
          if q0 ≤ 0 then
            (List.replicate (ps.length + 1) none, List.replicate (ps.length + 1) none)
          else
            let he2 := (if he = 0 then 1 else he) * (q1 / q0)
            let se2 := (if se = 0 then 1 else se) * (w * (q1 / q0) + (1 - w) * 1)
            let next := equityTail (some q1 :: ps) wrest he2 se2
            (some he2 :: next.1, some se2 :: next.2)
      | _, _, _ =>
          (List.replicate (ps.length + 1) none, List.replicate (ps.length + 1) none)
  | _, _, _, _ => ([], [])
termination_by prices _ _ _ => prices.length
decreasing_by
  simp

/-- Embeds `BacktestEngine.run_backtest` from core/backtest.py.  The source
crashes (IndexError) on an empty slice; that is modelled as `none`. -/
def run_backtest (dates : List String) (prices ratios : List (Option ℚ))
    (params : StrategyParams) (start_idx : ℕ) : Option BacktestResult :=
  let wres := compute_weight_series ratios dates params start_idx
  let dates_slice := dates.drop start_idx
  let prices_slice := prices.drop start_idx
  let weights_slice := wres.1.drop start_idx
  match dates_slice with
  | [] => none
  | d :: ds =>
      let tails := equityTail prices_slice weights_slice 1 1
      let hodl_equity := some 1 :: tails.1
      let strategy_equity := some 1 :: tails.2
      let last_hodl := match hodl_equity.getLast? with
        | some (some v) => v
        | _ => 1
      let last_strat := match strategy_equity.getLast? with
        | some (some v) => v
        | _ => 1
      some {
        dates := d :: ds
        weights := weights_slice
        strategy_equity := strategy_equity
        hodl_equity := hodl_equity
        strategy_return := last_strat - 1
        hodl_return := last_hodl - 1
        strategy_max_drawdown := max_drawdown (strategy_equity.filter (fun v => v.isSome))
        hodl_max_drawdown := max_drawdown (hodl_equity.filter (fun v => v.isSome))
        last_trade := wres.2
      }

/-- With fewer than two prices left the return loop produces nothing. -/
lemma equityTail_single (p : Option ℚ) (ws : List (Option ℚ)) (he se : ℚ) :
    equityTail [p] ws he se = ([], []) := by
  unfold equityTail
  rfl

/-- Claim C8: both equity curves start at 1.0; on a valid step the hold
curve is multiplied by `price[t+1]/price[t]` and the strategy curve by
`w * asset_return + (1-w) * 1`; and on prices [100, 200, 100] with full
hold the equity curve is [1.0, 2.0, 1.0] with return 0 and maximum
drawdown -0.5 (for the hold curve and the always-100% strategy alike). -/
theorem run_backtest_compounding (q0 q1 : ℚ) (ps ws : List (Option ℚ))
    (w he se : ℚ) (hq0 : 0 < q0) (hhe : he ≠ 0) (hse : se ≠ 0) :
    (equityTail (some q0 :: some q1 :: ps) (some w :: ws) he se).1.head?
        = some (some (he * (q1 / q0)))
    ∧ (equityTail (some q0 :: some q1 :: ps) (some w :: ws) he se).2.head?
        = some (some (se * (w * (q1 / q0) + (1 - w) * 1)))
    ∧ (∀ (dates : List String) (prices ratios : List (Option ℚ))
         (params : StrategyParams) (s : ℕ) (res : BacktestResult),
         run_backtest dates prices ratios params s = some res →
         res.hodl_equity.head? = some (some 1)
           ∧ res.strategy_equity.head? = some (some 1))
    ∧ run_backtest ["a", "b", "c"] [some 100, some 200, some 100]
        [some 0, some 0, some 0] {} 0
      = some { dates := ["a", "b", "c"],
               weights := [some 1, some 1, some 1],
               strategy_equity := [some 1, some 2, some 1],
               hodl_equity := [some 1, some 2, some 1],
               strategy_return := 0, hodl_return := 0,
               strategy_max_drawdown := -(1/2), hodl_max_drawdown := -(1/2),
               last_trade := none } := by
  refine ⟨?_, ?_, ?_, ?_⟩
  · simp only [equityTail]
    rw [if_neg (not_le.mpr hq0)]
    simp [hhe]
  · simp only [equityTail]
    rw [if_neg (not_le.mpr hq0)]
    simp [hse]
  · intro dates prices ratios params s res h
    simp only [run_backtest] at h
    cases hds : dates.drop s with
    | nil => rw [hds] at h; cases h
    | cons d ds =>
      rw [hds] at h
      cases h
      exact ⟨rfl, rfl⟩
  · norm_num [run_backtest, compute_weight_series, weightLoop, step_weight,
      target_weight, sell_weight, clamp, equityTail, max_drawdown, mddStep,
      List.filter, List.filterMap_cons, max_def, min_def, abs, equityTail_single]

/-- Witness for C8 at the two-day pair (100, 200) with full allocation. -/
theorem run_backtest_compounding_witness :
    (equityTail [some 100, some 200] [some 1] 1 1).1.head?
        = some (some (1 * (200 / 100)))
    ∧ (equityTail [some 100, some 200] [some 1] 1 1).2.head?
        = some (some (1 * (1 * (200 / 100) + (1 - 1) * 1)))
    ∧ (∀ (dates : List String) (prices ratios : List (Option ℚ))
         (params : StrategyParams) (s : ℕ) (res : BacktestResult),
         run_backtest dates prices ratios params s = some res →
         res.hodl_equity.head? = some (some 1)
           ∧ res.strategy_equity.head? = some (some 1))
    ∧ run_backtest ["a", "b", "c"] [some 100, some 200, some 100]
        [some 0, some 0, some 0] {} 0
      = some { dates := ["a", "b", "c"],
               weights := [some 1, some 1, some 1],
               strategy_equity := [some 1, some 2, some 1],
               hodl_equity := [some 1, some 2, some 1],
               strategy_return := 0, hodl_return := 0,
               strategy_max_drawdown := -(1/2), hodl_max_drawdown := -(1/2),
               last_trade := none } :=
  run_backtest_compounding 100 200 [] [] 1 1 1 (by norm_num) (by norm_num) (by norm_num)

/-- Embeds the ratio-indicator step of `ChannelCalculator.compute_channel`
(core/data_store.py lines 202-211) for a single day: `width = peak -
trough`; a day with `width > 0` gets `(price - trough) / width * 100`, any
other day is zero-filled; finally `np.clip(·, 0, 100)` is applied. -/
def channelRatio (price peak trough : ℚ) : ℚ :=
  let width := peak - trough
  let raw := if 0 < width then (price - trough) / width * 100 else 0
  min 100 (max 0 raw)

/-- The ratio indicator over aligned price / peak-bound / trough-bound
series, as the source computes it elementwise over the arrays. -/
def channelRatioSeries (prices peaks troughs : List ℚ) : List ℚ :=
  List.zipWith (fun p bt => channelRatio p bt.1 bt.2) prices (peaks.zip troughs)

/-- Claim C1 (code behaviour at the failing input): on a day whose bound
gap is non-positive the source zero-fills the position with the real
number 0 — not an undefined marker — while the rest of the series is
still produced. -/
theorem channelRatio_degenerate_zero_fill :
    ((10:ℚ) - 20 ≤ 0)
    ∧ channelRatioSeries [30, 50] [40, 10] [20, 20] = [50, 0]
    ∧ channelRatio 50 10 20 = 0 := by
  refine ⟨by norm_num, ?_, ?_⟩ <;>
    norm_num [channelRatioSeries, channelRatio, List.zipWith, max_def, min_def]

/-- Ordinary least squares `y = slope * x + intercept` with the semantics
of `sklearn.linear_model.LinearRegression.fit` as used in
`ChannelCalculator.compute_channel`: an empty sample set raises an error
(`none` here); a degenerate centered design — zero variance in x, e.g. a
single sample — yields the minimum-norm solution, slope 0 and intercept
the mean of y. -/
def linFit (pts : List (ℚ × ℚ)) : Option (ℚ × ℚ) :=
  match pts with
  | [] => none
  | _ :: _ =>
      let n : ℚ := pts.length
      let xbar := (pts.map Prod.fst).sum / n
      let ybar := (pts.map Prod.snd).sum / n
      let sxx := (pts.map (fun q => (q.1 - xbar) ^ 2)).sum
      let sxy := (pts.map (fun q => (q.1 - xbar) * (q.2 - ybar))).sum
      let slope := if sxx = 0 then 0 else sxy / sxx
      some (slope, ybar - slope * xbar)

/-- The regression stage of `ChannelCalculator.compute_channel`
(core/data_store.py lines 164-172): the peak and trough lines are fit
directly from the detected extremum coordinate sets, with no check on the
number of extrema found. -/
def fitChannelLines (peakPts troughPts : List (ℚ × ℚ)) :
    Option ((ℚ × ℚ) × (ℚ × ℚ)) :=
  match linFit peakPts, linFit troughPts with
  | some p, some t => some (p, t)
  | _, _ => none

/-- Claim C2 (code behaviour at the failing input): with a single detected
peak — fewer than the 2 the claim requires for rejection — the channel fit
completes and returns lines, the peak line being flat (slope 0). -/
theorem fitChannelLines_single_peak_no_error :
    ([((2000:ℚ), (1:ℚ)/2)].length < 2)
    ∧ fitChannelLines [(2000, 1/2)] [(1200, -(2/5)), (2600, -(3/10))]
        = some ((0, 1/2), (1/14000, -(17/35))) := by
  constructor
  · norm_num
  · norm_num [fitChannelLines, linFit]

/-- Day offset of the projection horizon `pd.Timestamp("2030-12-31")` from
the genesis date 2009-01-03, i.e. `(target_date - genesis).days` = 8032.
Day numbers ("ages") are offsets plus one, so the horizon has age 8033. -/
def targetOffset : ℤ := 8032

/-- Embeds the axis-extension step of `ChannelCalculator.compute_channel`
(core/data_store.py lines 174-184): starting from the observed day numbers
(`days = (date - genesis).days + 1`), append
`num_additional = (target_date - last_date).days + 1` consecutive day
numbers after the last observed one.  Dates are represented by their
integer day offset from genesis; `lastDateOffset` is the offset of the
last observed date.  The source would fail on an empty history (`none`
modelled as the empty result). -/
def extendedDays (days : List ℤ) (lastDateOffset : ℤ) : List ℤ :=
  match days.getLast? with
  | none => []
  | some lastDay =>
      let numAdditional := targetOffset - lastDateOffset + 1
      days ++ (List.range numAdditional.toNat).map (fun (k : ℕ) => lastDay + 1 + (k : ℤ))

/-- Counterexample to claim C3: for the two-day history 2030-12-27 /
2030-12-28 (ages 8029, 8030, last date offset 8029) the extended axis is
[8029, ..., 8034]: it does not contain age 1, and it contains age 8034 =
2031-01-01, strictly beyond the end-of-2030 horizon age 8033. -/
theorem extendedDays_horizon_counterexample :
    extendedDays [8029, 8030] 8029 = [8029, 8030, 8031, 8032, 8033, 8034]
    ∧ (1:ℤ) ∉ extendedDays [8029, 8030] 8029
    ∧ (8034:ℤ) ∈ extendedDays [8029, 8030] 8029
    ∧ targetOffset + 1 < (8034:ℤ) := by
  have h : extendedDays [8029, 8030] 8029 = [8029, 8030, 8031, 8032, 8033, 8034] := by
    norm_num [extendedDays, targetOffset]
    decide
  refine ⟨h, ?_, ?_, by norm_num [targetOffset]⟩ <;> rw [h] <;> decide

/-- Claim C3 (amended): when the history is consistent (the last observed
day number is the last date's offset plus one) and ends no later than the
horizon, the extended axis consists of the observed day numbers followed by
every consecutive day number up to and including `targetOffset + 2` — the
age of 2031-01-01, one day past the end-of-2030 horizon; it starts at the
observed ages, not at age 1. -/
theorem extendedDays_spec (days : List ℤ) (lastOff : ℤ) (hne : days ≠ [])
    (hlast : days.getLast hne = lastOff + 1) (hle : lastOff ≤ targetOffset) :
    (extendedDays days lastOff).getLast? = some (targetOffset + 2)
    ∧ ∀ a : ℤ, a ∈ extendedDays days lastOff ↔
        (a ∈ days ∨ (lastOff + 2 ≤ a ∧ a ≤ targetOffset + 2)) := by
  have hgl : days.getLast? = some (lastOff + 1) := by
    rw [List.getLast?_eq_getLast days hne, hlast]
  have hnum0 : (0:ℤ) ≤ targetOffset - lastOff + 1 := by omega
  have hnum : ((targetOffset - lastOff + 1).toNat : ℤ) = targetOffset - lastOff + 1 :=
    Int.toNat_of_nonneg hnum0
  have hpos : (targetOffset - lastOff + 1).toNat ≠ 0 := by omega
  obtain ⟨m, hm⟩ := Nat.exists_eq_succ_of_ne_zero hpos
  constructor
  · show (extendedDays days lastOff).getLast? = some (targetOffset + 2)
    simp only [extendedDays, hgl]
    rw [hm, List.range_succ, List.map_append, ← List.append_assoc]
    simp only [List.map_cons, List.map_nil, List.getLast?_concat]
    congr 1
    omega
  · intro a
    simp only [extendedDays, hgl, List.mem_append, List.mem_map, List.mem_range]
    constructor
    · rintro (h | ⟨k, hk, rfl⟩)
      · exact Or.inl h
      · right
        omega
    · rintro (h | ⟨h1, h2⟩)
      · exact Or.inl h
      · right
        refine ⟨(a - (lastOff + 2)).toNat, by omega, by omega⟩

/-- Witness for C3 (amended): a one-day history on the horizon date itself
(age 8033, offset 8032). -/
theorem extendedDays_spec_witness :
    (extendedDays [8033] 8032).getLast? = some (targetOffset + 2)
    ∧ ∀ a : ℤ, a ∈ extendedDays [8033] 8032 ↔
        (a ∈ [(8033:ℤ)] ∨ (8032 + 2 ≤ a ∧ a ≤ targetOffset + 2)) :=
  extendedDays_spec [8033] 8032 (by decide) rfl (by norm_num [targetOffset])

end BtcDashboard
